import Mathlib

/-!
Verification development for the factorio_quicklaunch launcher
(src/factorio_quicklaunch.py).

The non-GUI logic of the program is embedded shallowly:

* the Save Finder `find_latest_save` becomes a pure function over an
  explicit directory listing (`DirStatus`), with modification timestamps
  modelled as integers;
* the keyring credential store becomes a partial map `String → Option String`
  keyed by the same composite key string the program uses;
* the configuration store becomes a pure function over the optional file
  content, with the JSON parser passed in abstractly;
* the three launch operations become pure functions over the configuration,
  the credential store, a filesystem oracle and a spawn oracle; the result
  type `LaunchResult` records which warning was shown, which argument
  vector was handed to the process-spawn call, and whether a spawn
  exception was caught (message box) or propagated out of the handler.
-/

/-- One direct child of the saves directory, as observed by `Path.iterdir`:
its file name, whether it is a regular file (`f.is_file()`), and its
modification timestamp (`f.stat().st_mtime`, modelled as an integer). -/
structure DirEntry where
  name : String
  isFile : Bool
  mtime : Int
deriving DecidableEq, Repr

/-- The state of the saves-directory path: missing, existing but not a
directory, or a directory with a list of direct children. -/
inductive DirStatus where
  | missing : DirStatus
  | notDir : DirStatus
  | dir (entries : List DirEntry) : DirStatus
deriving DecidableEq, Repr

/-- Python `str.lower`, restricted to the per-character ASCII case fold the
program relies on for extensions. -/
def strLower (s : String) : String :=
  String.mk (s.data.map Char.toLower)

/-- Python `pathlib.PurePath.suffix`: the substring from the last dot of the
file name, unless that dot is the first or the last character. -/
def pySuffix (name : String) : String :=
  let l := name.data
  match l.reverse.findIdx? (fun c => c = '.') with
  | none => ""
  | some j =>
    let i := l.length - 1 - j
    if 0 < i ∧ i < l.length - 1 then String.mk (l.drop i) else ""

/-- The fixed extension allow-list of `find_latest_save`. -/
def exts : List String := [".zip", ".save", ".dat", ".autosave", ".quicksave"]

/-- The filter applied to each child: `f.is_file() and f.suffix.lower() in exts`. -/
def matchesExt (f : DirEntry) : Bool :=
  f.isFile && exts.contains (strLower (pySuffix f.name))

/-- `str(f)` for a child `f` of the directory: the directory path joined
with the file name. -/
def childPath (dir : String) (f : DirEntry) : String :=
  dir ++ "/" ++ f.name

/-- The scanning loop of `find_latest_save`: starting from the running pair
`(latest, latest_time)`, each matching child whose timestamp strictly
exceeds the running maximum replaces it. -/
def scanSaves (dir : String) : List DirEntry → Option String → Int → Option String
  | [], latest, _ => latest
  | f :: rest, latest, latest_time =>
    if matchesExt f && decide (latest_time < f.mtime) then
      scanSaves dir rest (some (childPath dir f)) f.mtime
    else
      scanSaves dir rest latest latest_time

/-- `find_latest_save` from the source: empty argument, missing path and
non-directory all yield `none`; otherwise the children are scanned with the
running maximum initialised to `(None, 0)`. -/
def find_latest_save (saves_dir : String) (fs : DirStatus) : Option String :=
  if saves_dir = "" then none
  else
    match fs with
    | DirStatus.missing => none
    | DirStatus.notDir => none
    | DirStatus.dir entries => scanSaves saves_dir entries none 0

/-- The matching children of a listing, in enumeration order. -/
def matching (l : List DirEntry) : List DirEntry :=
  l.filter (fun f => matchesExt f)

/-- Selection as the specification words it: among the matching children,
the one with the greatest modification timestamp, ties resolved by
first-encountered-wins in enumeration order. -/
def specLatest (dir : String) (l : List DirEntry) : Option String :=
  match (matching l).find? (fun f => decide (∀ g ∈ matching l, g.mtime ≤ f.mtime)) with
  | some f => some (childPath dir f)
  | none => none

/-- The entry the scanning loop finally holds, starting from a running
maximum `t`: each matching child strictly above the running maximum becomes
the new holder. -/
def firstStrictMax (l : List DirEntry) (t : Int) : Option DirEntry :=
  match l with
  | [] => none
  | f :: rest =>
    if matchesExt f && decide (t < f.mtime) then
      some ((firstStrictMax rest f.mtime).getD f)
    else firstStrictMax rest t

theorem scanSaves_eq_firstStrictMax (dir : String) (l : List DirEntry)
    (cur : Option String) (t : Int) :
    scanSaves dir l cur t =
      match firstStrictMax l t with
      | some f => some (childPath dir f)
      | none => cur := by
  induction l generalizing cur t with
  | nil => rfl
  | cons f rest ih =>
    by_cases h : (matchesExt f && decide (t < f.mtime)) = true
    · rw [scanSaves, if_pos h, firstStrictMax, if_pos h, ih]
      cases hr : firstStrictMax rest f.mtime <;> simp [Option.getD]
    · rw [scanSaves, if_neg h, firstStrictMax, if_neg h, ih]

theorem firstStrictMax_eq_none_iff (l : List DirEntry) (t : Int) :
    firstStrictMax l t = none ↔ ∀ f ∈ l, matchesExt f = true → f.mtime ≤ t := by
  induction l generalizing t with
  | nil => simp [firstStrictMax]
  | cons f rest ih =>
    by_cases h : (matchesExt f && decide (t < f.mtime)) = true
    · rw [firstStrictMax, if_pos h]
      obtain ⟨hm, ht⟩ := Bool.and_eq_true_iff.mp h
      simp only [decide_eq_true_eq] at ht
      constructor
      · intro hc; exact absurd hc (by simp)
      · intro hall
        have := hall f (List.mem_cons_self f rest) hm
        omega
    · rw [firstStrictMax, if_neg h, ih]
      rw [Bool.and_eq_true_iff, not_and_or] at h
      constructor
      · intro hall g hg hgm
        rcases List.mem_cons.mp hg with rfl | hg2
        · rcases h with hm | ht
          · exact absurd hgm hm
          · simp only [decide_eq_true_eq] at ht; omega
        · exact hall g hg2 hgm
      · intro hall g hg hgm
        exact hall g (List.mem_cons_of_mem f hg) hgm

theorem exists_max_mem (l : List DirEntry) (h : l ≠ []) :
    ∃ x ∈ l, ∀ g ∈ l, g.mtime ≤ x.mtime := by
  induction l with
  | nil => exact absurd rfl h
  | cons f rest ih =>
    rcases eq_or_ne rest [] with rfl | hne
    · exact ⟨f, List.mem_cons_self f [], by intro g hg; rcases List.mem_cons.mp hg with rfl | hg2 <;> simp_all⟩
    · obtain ⟨x, hx, hmax⟩ := ih hne
      by_cases hc : f.mtime ≤ x.mtime
      · refine ⟨x, List.mem_cons_of_mem f hx, ?_⟩
        intro g hg
        rcases List.mem_cons.mp hg with rfl | hg2
        · exact hc
        · exact hmax g hg2
      · refine ⟨f, List.mem_cons_self f rest, ?_⟩
        intro g hg
        rcases List.mem_cons.mp hg with rfl | hg2
        · exact le_refl _
        · exact le_trans (hmax g hg2) (le_of_not_le hc)

theorem findCongr {α : Type} (l : List α) (p q : α → Bool)
    (h : ∀ x ∈ l, p x = q x) : l.find? p = l.find? q := by
  induction l with
  | nil => rfl
  | cons a as ih =>
    have ha := h a (List.mem_cons_self a as)
    by_cases hp : p a = true
    · rw [List.find?_cons_of_pos as hp, List.find?_cons_of_pos as (ha ▸ hp)]
    · rw [List.find?_cons_of_neg as hp, List.find?_cons_of_neg as (ha ▸ hp)]
      exact ih (fun x hx => h x (List.mem_cons_of_mem a hx))

theorem firstStrictMax_eq_find (l : List DirEntry) (t : Int)
    (h : ∃ f ∈ l, matchesExt f = true ∧ t < f.mtime) :
    firstStrictMax l t =
      (matching l).find? (fun f => decide (∀ g ∈ matching l, g.mtime ≤ f.mtime)) := by
  induction l generalizing t with
  | nil => simp at h
  | cons f rest ih =>
    obtain ⟨x, hxmem, hxm, hxt⟩ := h
    by_cases hm : matchesExt f = true
    · have hmatch : matching (f :: rest) = f :: matching rest := by
        simp [matching, List.filter_cons, hm]
      by_cases ht : t < f.mtime
      · have hcond : (matchesExt f && decide (t < f.mtime)) = true := by
          simp [hm, ht]
        rw [firstStrictMax, if_pos hcond, hmatch]
        by_cases hrest : ∃ g ∈ rest, matchesExt g = true ∧ f.mtime < g.mtime
        · obtain ⟨g0, hg0r, hg0m, hg0t⟩ := hrest
          have hg0mr : g0 ∈ matching rest := List.mem_filter.mpr ⟨hg0r, hg0m⟩
          have hIH := ih f.mtime ⟨g0, hg0r, hg0m, hg0t⟩
          have hpf : ¬ (decide (∀ g ∈ f :: matching rest, g.mtime ≤ f.mtime)) = true := by
            simp only [decide_eq_true_eq]
            intro hall
            have := hall g0 (List.mem_cons_of_mem f hg0mr)
            omega
          rw [List.find?_cons_of_neg (p := fun y => decide (∀ g ∈ f :: matching rest, g.mtime ≤ y.mtime)) (matching rest) hpf]
          have hfind :
              List.find? (fun y => decide (∀ g ∈ f :: matching rest, g.mtime ≤ y.mtime))
                  (matching rest) =
              List.find? (fun y => decide (∀ g ∈ matching rest, g.mtime ≤ y.mtime))
                  (matching rest) := by
            apply findCongr
            intro y hy
            apply decide_eq_decide.mpr
            constructor
            · intro hall g hg
              exact hall g (List.mem_cons_of_mem f hg)
            · intro hall g hg
              rcases List.mem_cons.mp hg with rfl | hg2
              · have := hall g0 hg0mr
                omega
              · exact hall g hg2
          rw [hfind, ← hIH]
          cases hr : firstStrictMax rest f.mtime with
          | none =>
            exfalso
            have := (firstStrictMax_eq_none_iff rest f.mtime).mp hr g0 hg0r hg0m
            omega
          | some y => simp [Option.getD]
        · push_neg at hrest
          have hnone : firstStrictMax rest f.mtime = none := by
            rw [firstStrictMax_eq_none_iff]
            intro g hg hgm
            exact hrest g hg hgm
          rw [hnone]
          have hpf : (decide (∀ g ∈ f :: matching rest, g.mtime ≤ f.mtime)) = true := by
            simp only [decide_eq_true_eq]
            intro g hg
            rcases List.mem_cons.mp hg with rfl | hg2
            · exact le_refl _
            · obtain ⟨hgr, hgm⟩ := List.mem_filter.mp hg2
              exact hrest g hgr hgm
          rw [List.find?_cons_of_pos (p := fun y => decide (∀ g ∈ f :: matching rest, g.mtime ≤ y.mtime)) (matching rest) hpf]
          simp [Option.getD]
      · have hcond : ¬ (matchesExt f && decide (t < f.mtime)) = true := by
          simp [hm, ht]
        rw [firstStrictMax, if_neg hcond, hmatch]
        have hxne : x ≠ f := by
          intro he
          subst he
          omega
        have hxr : x ∈ rest := by
          rcases List.mem_cons.mp hxmem with he | hr
          · exact absurd he hxne
          · exact hr
        have hxmr : x ∈ matching rest := List.mem_filter.mpr ⟨hxr, hxm⟩
        have hIH := ih t ⟨x, hxr, hxm, hxt⟩
        have hpf : ¬ (decide (∀ g ∈ f :: matching rest, g.mtime ≤ f.mtime)) = true := by
          simp only [decide_eq_true_eq]
          intro hall
          have := hall x (List.mem_cons_of_mem f hxmr)
          omega
        rw [List.find?_cons_of_neg (p := fun y => decide (∀ g ∈ f :: matching rest, g.mtime ≤ y.mtime)) (matching rest) hpf]
        have hfind :
            List.find? (fun y => decide (∀ g ∈ f :: matching rest, g.mtime ≤ y.mtime))
                (matching rest) =
            List.find? (fun y => decide (∀ g ∈ matching rest, g.mtime ≤ y.mtime))
                (matching rest) := by
          apply findCongr
          intro y hy
          apply decide_eq_decide.mpr
          constructor
          · intro hall g hg
            exact hall g (List.mem_cons_of_mem f hg)
          · intro hall g hg
            rcases List.mem_cons.mp hg with rfl | hg2
            · have := hall x hxmr
              omega
            · exact hall g hg2
        rw [hfind]
        exact hIH
    · have hcond : ¬ (matchesExt f && decide (t < f.mtime)) = true := by
        simp [hm]
      have hmatch : matching (f :: rest) = matching rest := by
        simp [matching, List.filter_cons, hm]
      rw [firstStrictMax, if_neg hcond, hmatch]
      have hxr : x ∈ rest := by
        rcases List.mem_cons.mp hxmem with he | hr
        · rw [he] at hxm
          exact absurd hxm hm
        · exact hr
      exact ih t ⟨x, hxr, hxm, hxt⟩

theorem mem_matching (f : DirEntry) (l : List DirEntry) :
    f ∈ matching l ↔ f ∈ l ∧ matchesExt f = true := by
  simp [matching, List.mem_filter]

/-- C1 (amended): over an actual directory, `find_latest_save` considers
only the children passing the `matchesExt` filter and, provided some
matching child has a strictly positive modification timestamp, returns the
matching child with the strictly greatest timestamp, ties resolved by
first-encountered-wins in enumeration order (`specLatest`). -/
theorem find_latest_save_eq_specLatest (saves_dir : String) (l : List DirEntry)
    (h1 : saves_dir ≠ "")
    (h2 : ∃ f ∈ matching l, 0 < f.mtime) :
    find_latest_save saves_dir (DirStatus.dir l) = specLatest saves_dir l := by
  obtain ⟨x, hxm, hx0⟩ := h2
  obtain ⟨hxl, hxe⟩ := (mem_matching x l).mp hxm
  rw [find_latest_save, if_neg h1, scanSaves_eq_firstStrictMax,
    firstStrictMax_eq_find l 0 ⟨x, hxl, hxe, hx0⟩]
  cases hf : (matching l).find? (fun f => decide (∀ g ∈ matching l, g.mtime ≤ f.mtime)) <;>
    simp [specLatest, hf]

/-- Witness for C1: over children {world.zip mtime 10, world.save mtime 30,
notes.txt mtime 99} the function agrees with the specified selection and
returns the .save file, ignoring the newer .txt file. -/
theorem find_latest_save_eq_specLatest_witness :
    find_latest_save "saves"
        (DirStatus.dir [⟨"world.zip", true, 10⟩, ⟨"world.save", true, 30⟩, ⟨"notes.txt", true, 99⟩]) =
      specLatest "saves" [⟨"world.zip", true, 10⟩, ⟨"world.save", true, 30⟩, ⟨"notes.txt", true, 99⟩] ∧
    specLatest "saves" [⟨"world.zip", true, 10⟩, ⟨"world.save", true, 30⟩, ⟨"notes.txt", true, 99⟩] =
      some "saves/world.save" :=
  ⟨find_latest_save_eq_specLatest "saves" _ (by decide)
      ⟨⟨"world.save", true, 30⟩, by decide, by decide⟩,
    by decide⟩

/-- Counterexample to C1 as stated: a directory holding a single matching
file of modification timestamp 0 makes `find_latest_save` return `none`,
while the claimed selection (the strictly greatest timestamp among matching
files) is that very file. -/
theorem find_latest_save_spec_cex :
    find_latest_save "saves" (DirStatus.dir [⟨"old.zip", true, 0⟩]) = none ∧
    specLatest "saves" [⟨"old.zip", true, 0⟩] = some "saves/old.zip" := by
  exact ⟨by decide, by decide⟩

/-- C2 (amended): `find_latest_save` returns `none` exactly when the
directory argument is the empty string, the path does not exist, the path
is not a directory, or no matching child has a strictly positive
modification timestamp; the function is total, so no error is raised. -/
theorem find_latest_save_none_iff (saves_dir : String) (fs : DirStatus) :
    find_latest_save saves_dir fs = none ↔
      saves_dir = "" ∨ fs = DirStatus.missing ∨ fs = DirStatus.notDir ∨
        ∃ l, fs = DirStatus.dir l ∧ ∀ f ∈ matching l, f.mtime ≤ 0 := by
  by_cases h1 : saves_dir = ""
  · simp [find_latest_save, h1]
  · cases fs with
    | missing => simp [find_latest_save, h1]
    | notDir => simp [find_latest_save, h1]
    | dir l =>
      rw [find_latest_save, if_neg h1]
      constructor
      · intro hnone
        refine Or.inr (Or.inr (Or.inr ⟨l, rfl, ?_⟩))
        intro f hf
        obtain ⟨hfl, hfe⟩ := (mem_matching f l).mp hf
        rw [scanSaves_eq_firstStrictMax] at hnone
        cases hfsm : firstStrictMax l 0 with
        | some g => rw [hfsm] at hnone; simp at hnone
        | none => exact (firstStrictMax_eq_none_iff l 0).mp hfsm f hfl hfe
      · intro hr
        rcases hr with hr | hr | hr | ⟨l2, hl2, hall⟩
        · exact absurd hr h1
        · exact absurd hr (by simp)
        · exact absurd hr (by simp)
        · obtain heq : l2 = l := by injection hl2.symm
          rw [heq] at hall
          rw [scanSaves_eq_firstStrictMax]
          have hfsm : firstStrictMax l 0 = none := by
            rw [firstStrictMax_eq_none_iff]
            intro f hf hfm
            exact hall f ((mem_matching f l).mpr ⟨hf, hfm⟩)
          rw [hfsm]

/-- Counterexample to C2 as stated: a nonempty directory path naming a real
directory that contains a matching file (epoch.zip, modification timestamp
0) still yields `none`, although none of the four enumerated absence
conditions of the claim holds. -/
theorem find_latest_save_absent_with_match_cex :
    find_latest_save "saves" (DirStatus.dir [⟨"epoch.zip", true, 0⟩]) = none ∧
    matching [⟨"epoch.zip", true, 0⟩] = [⟨"epoch.zip", true, 0⟩] ∧
    ("saves" : String) ≠ "" := by
  exact ⟨by decide, by decide, by decide⟩

/-- C10: when every matching child has modification timestamp at most 0,
`find_latest_save` returns `none`: the running maximum starts at 0 and is
compared strictly, so such files are never selected. -/
theorem find_latest_save_nonpos_mtime_none (saves_dir : String) (l : List DirEntry)
    (h : ∀ f ∈ matching l, f.mtime ≤ 0) :
    find_latest_save saves_dir (DirStatus.dir l) = none := by
  by_cases h1 : saves_dir = ""
  · simp [find_latest_save, h1]
  · rw [find_latest_save, if_neg h1, scanSaves_eq_firstStrictMax]
    have hfsm : firstStrictMax l 0 = none := by
      rw [firstStrictMax_eq_none_iff]
      intro f hf hfm
      exact h f ((mem_matching f l).mpr ⟨hf, hfm⟩)
    rw [hfsm]

/-- Witness for C10: a directory with matching files of timestamps 0 and -7
yields no latest save. -/
theorem find_latest_save_nonpos_mtime_none_witness :
    find_latest_save "saves"
        (DirStatus.dir [⟨"epoch.save", true, 0⟩, ⟨"ancient.zip", true, -7⟩]) = none :=
  find_latest_save_nonpos_mtime_none "saves" _ (by decide)

/-- The credential store: a partial map from composite keys to secrets,
standing for the platform keyring restricted to the constant attribute
name "password" the program always uses. -/
abbrev Keyring : Type := String → Option String

/-- `keyring.set_password`: overwrites the secret under a key. -/
def keyringSet (kr : Keyring) (key value : String) : Keyring :=
  fun k => if k = key then some value else kr k

/-- `keyring.delete_password`: removes the secret under a key; the source
wraps the call in try/except pass, so deleting a missing secret is a no-op
either way. -/
def keyringDel (kr : Keyring) (key : String) : Keyring :=
  fun k => if k = key then none else kr k

/-- The service namespace constant of the source,
`f"\x7bAPP_NAME\x7d.server"`. -/
def serviceNamespace : String := "FactorioLauncher.server"

/-- The composite key `f"\x7bSERVICE_PREFIX\x7d:\x7bname\x7d"` under which
the secret of a server is stored. -/
def serviceKey (name : String) : String :=
  serviceNamespace ++ ":" ++ name

/-- `store_server_password` from the source. -/
def store_server_password (kr : Keyring) (name password : String) : Keyring :=
  keyringSet kr (serviceKey name) password

/-- `get_server_password` from the source. -/
def get_server_password (kr : Keyring) (name : String) : Option String :=
  kr (serviceKey name)

/-- `delete_server_password` from the source. -/
def delete_server_password (kr : Keyring) (name : String) : Keyring :=
  keyringDel kr (serviceKey name)

theorem serviceKey_inj (a b : String) (h : serviceKey a = serviceKey b) : a = b := by
  rw [serviceKey, serviceKey] at h
  have hd : (serviceNamespace ++ ":" ++ a).data = (serviceNamespace ++ ":" ++ b).data := by
    rw [h]
  rw [String.data_append, String.data_append, String.data_append, String.data_append] at hd
  rw [List.append_assoc, List.append_assoc] at hd
  have h2 := List.append_cancel_left hd
  have h3 := List.append_cancel_left h2
  cases a with
  | mk la =>
    cases b with
    | mk lb => simp_all

/-- A server entry of the configuration document; the password is not a
field, it lives only in the credential store, addressed by the name. -/
structure ServerEntry where
  name : String
  host : String
  port : Int
  user : String
deriving DecidableEq, Repr

/-- The configuration document `\x7bfactorio_path, saves_dir, servers\x7d`. -/
structure Config where
  factorio_path : String
  saves_dir : String
  servers : List ServerEntry
deriving DecidableEq, Repr

/-- The default document `\x7b"factorio_path": "", "saves_dir": "",
"servers": []\x7d` written on first run and used as the in-memory fallback. -/
def defaultConfig : Config :=
  { factorio_path := "", saves_dir := "", servers := [] }

/-- `ensure_config_path`: when the file is absent, the serialized default
document (`defaultText`) is written; an existing file is left untouched. -/
def ensure_config_path (defaultText : String) (file : Option String) : Option String :=
  match file with
  | none => some defaultText
  | some c => some c

/-- `load_config`: ensures the file exists, then parses its content with
the JSON parser (passed in abstractly as `parse`, `none` standing for a
parse exception); a parse failure falls back to the in-memory default
document without touching the file. Returns the loaded configuration
together with the file content after the call. -/
def load_config (parse : String → Option Config) (defaultText : String)
    (file : Option String) : Config × Option String :=
  let file2 := ensure_config_path defaultText file
  match file2 with
  | some c =>
    match parse c with
    | some cfg => (cfg, file2)
    | none => (defaultConfig, file2)
  | none => (defaultConfig, file2)

/-- The record returned by `ServerDialog.get_data` when the dialog is
accepted. -/
structure DialogData where
  name : String
  host : String
  port : Int
  user : String
  password : String
deriving DecidableEq, Repr

/-- `add_server` after the dialog is accepted: an empty name is rejected
with a warning and changes nothing; otherwise the entered password is
stored unconditionally under the new name and the entry is appended to the
server list. -/
def add_server (cfg : Config) (kr : Keyring) (d : DialogData) : Config × Keyring :=
  if d.name = "" then (cfg, kr)
  else
    ({ cfg with servers := cfg.servers ++ [⟨d.name, d.host, d.port, d.user⟩] },
      store_server_password kr d.name d.password)

/-- `edit_server` after the dialog is accepted for the entry at `row`: the
entered password is stored, under the possibly new name, only when it is
nonempty; the entry is overwritten in place; nothing is deleted from the
credential store. -/
def edit_server (cfg : Config) (kr : Keyring) (row : Fin cfg.servers.length)
    (d : DialogData) : Config × Keyring :=
  ({ cfg with servers := cfg.servers.set row.val ⟨d.name, d.host, d.port, d.user⟩ },
    if d.password = "" then kr else store_server_password kr d.name d.password)

/-- `remove_server` for the selected `row`: the entry is removed from the
list and the credential under its name is deleted. -/
def remove_server (cfg : Config) (kr : Keyring) (row : Fin cfg.servers.length) :
    Config × Keyring :=
  ({ cfg with servers := cfg.servers.eraseIdx row.val },
    delete_server_password kr (cfg.servers.get row).name)

/-- What a path refers to on the filesystem; `Path(p).exists()` is true for
both a file and a directory. -/
inductive PathKind where
  | file : PathKind
  | dir : PathKind
  | absent : PathKind
deriving DecidableEq, Repr

/-- `Path(p).exists()` over the filesystem oracle `st`. -/
def pathExists (st : String → PathKind) (p : String) : Bool :=
  match st p with
  | PathKind.absent => false
  | _ => true

/-- Outcome of a launch operation. A spawn attempt records the argument
vector handed to `subprocess.Popen`; a spawn exception is either caught and
shown in a message box (`launchFailed`, only the connect handler does this)
or propagates out of the handler (`uncaughtSpawnError`). -/
inductive LaunchResult where
  | pathNotFound : LaunchResult
  | noSaveFound : LaunchResult
  | spawned (args : List String) : LaunchResult
  | launchFailed (args : List String) (msg : String) : LaunchResult
  | uncaughtSpawnError (args : List String) (msg : String) : LaunchResult
deriving DecidableEq, Repr

/-- The argument vector handed to the spawn call, when one was made. -/
def spawnAttempt : LaunchResult → Option (List String)
  | LaunchResult.spawned args => some args
  | LaunchResult.launchFailed args _ => some args
  | LaunchResult.uncaughtSpawnError args _ => some args
  | LaunchResult.pathNotFound => none
  | LaunchResult.noSaveFound => none

/-- `launch_normal`: warns and stops when `Path(factorio).exists()` is
false; otherwise spawns the executable with no further arguments. The
spawn call is not wrapped in try/except, so a spawn exception propagates
out of the handler. -/
def launch_normal (cfg : Config) (pstat : String → PathKind)
    (spawn : List String → Except String Unit) : LaunchResult :=
  if pathExists pstat cfg.factorio_path = false then LaunchResult.pathNotFound
  else
    match spawn [cfg.factorio_path] with
    | Except.ok _ => LaunchResult.spawned [cfg.factorio_path]
    | Except.error e => LaunchResult.uncaughtSpawnError [cfg.factorio_path] e

/-- `continue_latest_save`: runs the Save Finder over the configured saves
directory; warns and stops when nothing is found; otherwise spawns the
executable with `--load-game` and the found path, without any existence
check on the executable and with no try/except around the spawn call. -/
def continue_latest_save (cfg : Config) (fs : DirStatus)
    (spawn : List String → Except String Unit) : LaunchResult :=
  match find_latest_save cfg.saves_dir fs with
  | none => LaunchResult.noSaveFound
  | some latest =>
    match spawn [cfg.factorio_path, "--load-game", latest] with
    | Except.ok _ => LaunchResult.spawned [cfg.factorio_path, "--load-game", latest]
    | Except.error e =>
      LaunchResult.uncaughtSpawnError [cfg.factorio_path, "--load-game", latest] e

/-- `connect_to_server` for the selected `row`: checks the executable with
`Path.exists`, normalises the stored secret with
`get_server_password(...) or ""`, builds
`[exe, "--mp-connect", host:port]`, appends `["--password", pw]` only when
the normalised secret is nonempty, and wraps the spawn call in try/except,
surfacing a spawn exception as a Launch Failed message box carrying the
underlying message. -/
def connect_to_server (cfg : Config) (kr : Keyring) (pstat : String → PathKind)
    (spawn : List String → Except String Unit) (row : Fin cfg.servers.length) :
    LaunchResult :=
  let s := cfg.servers.get row
  if pathExists pstat cfg.factorio_path = false then LaunchResult.pathNotFound
  else
    let pw := (get_server_password kr s.name).getD ""
    let args := [cfg.factorio_path, "--mp-connect", s.host ++ ":" ++ toString s.port]
    let args2 := if pw = "" then args else args ++ ["--password", pw]
    match spawn args2 with
    | Except.ok _ => LaunchResult.spawned args2
    | Except.error e => LaunchResult.launchFailed args2 e

/-- C3 (amended): with an existing executable, connect hands the spawn call
`[exe, "--mp-connect", host:port]`, with the pair `["--password", secret]`
appended exactly when a nonempty secret is stored for the server name; a
missing secret and a stored empty secret both leave the password pair off,
because the source normalises the lookup with `or ""`. -/
theorem connect_to_server_args (cfg : Config) (kr : Keyring)
    (pstat : String → PathKind) (spawn : List String → Except String Unit)
    (row : Fin cfg.servers.length)
    (hexe : pathExists pstat cfg.factorio_path = true) :
    ((get_server_password kr (cfg.servers.get row).name = none ∨
        get_server_password kr (cfg.servers.get row).name = some "") →
      spawnAttempt (connect_to_server cfg kr pstat spawn row) =
        some [cfg.factorio_path, "--mp-connect",
          (cfg.servers.get row).host ++ ":" ++ toString (cfg.servers.get row).port]) ∧
    (∀ p, get_server_password kr (cfg.servers.get row).name = some p → p ≠ "" →
      spawnAttempt (connect_to_server cfg kr pstat spawn row) =
        some [cfg.factorio_path, "--mp-connect",
          (cfg.servers.get row).host ++ ":" ++ toString (cfg.servers.get row).port,
          "--password", p]) := by
  constructor
  · intro hno
    have hpw : (get_server_password kr (cfg.servers.get row).name).getD "" = "" := by
      rcases hno with hno | hno <;> rw [hno] <;> rfl
    rw [connect_to_server]
    simp only [hexe, Bool.true_eq_false, if_false, hpw, if_pos rfl]
    split <;> rfl
  · intro p hp hpne
    have hpw : (get_server_password kr (cfg.servers.get row).name).getD "" = p := by
      rw [hp]; rfl
    rw [connect_to_server]
    simp only [hexe, Bool.true_eq_false, if_false, hpw, if_neg hpne]
    split <;> rfl

/-- Witness for C3: a server with a stored secret "p" gets the password
pair appended after the connect pair; the host:port argument is the literal
join. -/
theorem connect_to_server_args_witness :
    spawnAttempt (connect_to_server ⟨"/usr/bin/factorio", "", [⟨"X", "example.org", 34197, "u"⟩]⟩
        (fun k => if k = serviceKey "X" then some "p" else none)
        (fun _ => PathKind.file) (fun _ => Except.ok ()) ⟨0, by decide⟩) =
      some ["/usr/bin/factorio", "--mp-connect", "example.org:34197", "--password", "p"] := by
  have h := (connect_to_server_args ⟨"/usr/bin/factorio", "", [⟨"X", "example.org", 34197, "u"⟩]⟩
      (fun k => if k = serviceKey "X" then some "p" else none)
      (fun _ => PathKind.file) (fun _ => Except.ok ()) ⟨0, by decide⟩
      (by decide)).2 "p" (by decide) (by decide)
  exact h.trans (by decide)

/-- Counterexample to C3 as stated: a stored secret that is the empty
string (reachable, since `add_server` stores the entered password even when
it is empty) is present in the credential store, yet the built argument
list carries no password pair. -/
theorem connect_to_server_empty_secret_cex :
    get_server_password (fun k => if k = serviceKey "X" then some "" else none) "X" = some "" ∧
    connect_to_server ⟨"/usr/bin/factorio", "", [⟨"X", "example.org", 34197, "u"⟩]⟩
        (fun k => if k = serviceKey "X" then some "" else none)
        (fun _ => PathKind.file) (fun _ => Except.ok ()) ⟨0, by decide⟩ =
      LaunchResult.spawned ["/usr/bin/factorio", "--mp-connect", "example.org:34197"] := by
  exact ⟨by decide, by decide⟩

/-- C4 (amended): a spawn failure in connect is caught and surfaced as a
Launch Failed notice carrying the underlying message, while spawn failures
in plain launch and in resume-latest are not caught there and propagate out
of the handler. -/
theorem spawn_failure_handling (cfg : Config) (kr : Keyring)
    (pstat : String → PathKind) (fs : DirStatus) (e : String)
    (row : Fin cfg.servers.length)
    (hexe : pathExists pstat cfg.factorio_path = true)
    (latest : String) (hl : find_latest_save cfg.saves_dir fs = some latest) :
    (∃ a, connect_to_server cfg kr pstat (fun _ => Except.error e) row =
        LaunchResult.launchFailed a e) ∧
    launch_normal cfg pstat (fun _ => Except.error e) =
      LaunchResult.uncaughtSpawnError [cfg.factorio_path] e ∧
    continue_latest_save cfg fs (fun _ => Except.error e) =
      LaunchResult.uncaughtSpawnError [cfg.factorio_path, "--load-game", latest] e := by
  refine ⟨?_, ?_, ?_⟩
  · rw [connect_to_server]
    simp only [hexe, Bool.true_eq_false, if_false]
    by_cases hpw : (get_server_password kr (cfg.servers.get row).name).getD "" = "" <;>
      simp only [hpw, if_pos, if_neg, if_true, if_false] <;>
      exact ⟨_, rfl⟩
  · rw [launch_normal]
    simp only [hexe, Bool.true_eq_false, if_false]
  · rw [continue_latest_save, hl]

/-- Witness for C4: concrete instances of all three operations with a
failing spawn oracle. -/
theorem spawn_failure_handling_witness :
    (∃ a, connect_to_server ⟨"/usr/bin/factorio", "saves", [⟨"X", "h", 1, "u"⟩]⟩
        (fun _ => none) (fun _ => PathKind.file) (fun _ => Except.error "boom")
        ⟨0, by decide⟩ = LaunchResult.launchFailed a "boom") ∧
    launch_normal ⟨"/usr/bin/factorio", "saves", [⟨"X", "h", 1, "u"⟩]⟩
        (fun _ => PathKind.file) (fun _ => Except.error "boom") =
      LaunchResult.uncaughtSpawnError ["/usr/bin/factorio"] "boom" ∧
    continue_latest_save ⟨"/usr/bin/factorio", "saves", [⟨"X", "h", 1, "u"⟩]⟩
        (DirStatus.dir [⟨"world.zip", true, 10⟩]) (fun _ => Except.error "boom") =
      LaunchResult.uncaughtSpawnError ["/usr/bin/factorio", "--load-game", "saves/world.zip"]
        "boom" :=
  spawn_failure_handling ⟨"/usr/bin/factorio", "saves", [⟨"X", "h", 1, "u"⟩]⟩
    (fun _ => none) (fun _ => PathKind.file) (DirStatus.dir [⟨"world.zip", true, 10⟩])
    "boom" ⟨0, by decide⟩ (by decide) "saves/world.zip" (by decide)

/-- Counterexample to C4 as stated: a spawn failure in `launch_normal`
(for instance a permission error on an existing file) is not surfaced as a
caught Launch Failed notice; the exception leaves the handler. -/
theorem launch_normal_uncaught_cex :
    launch_normal ⟨"/usr/bin/factorio", "", []⟩ (fun _ => PathKind.file)
        (fun _ => Except.error "Permission denied") =
      LaunchResult.uncaughtSpawnError ["/usr/bin/factorio"] "Permission denied" ∧
    (∀ a m, LaunchResult.uncaughtSpawnError ["/usr/bin/factorio"] "Permission denied" ≠
      LaunchResult.launchFailed a m) := by
  exact ⟨rfl, fun a m h => LaunchResult.noConfusion h⟩

/-- C5 (amended): when the executable path references no existing
filesystem path at all, `launch_normal` stops with the not-found warning
and attempts no spawn, whatever the spawn oracle; when the path exists —
as a file or as a directory, since the source checks `Path.exists` rather
than `is_file` — the executable is handed to the spawn call with no
arguments beyond itself. -/
theorem launch_normal_spec (cfg : Config) (pstat : String → PathKind)
    (spawn : List String → Except String Unit) :
    (pstat cfg.factorio_path = PathKind.absent →
      launch_normal cfg pstat spawn = LaunchResult.pathNotFound) ∧
    (pstat cfg.factorio_path ≠ PathKind.absent →
      spawnAttempt (launch_normal cfg pstat spawn) = some [cfg.factorio_path]) := by
  constructor
  · intro h
    rw [launch_normal, pathExists, h]
    rfl
  · intro h
    have hx : pathExists pstat cfg.factorio_path = true := by
      rw [pathExists]
      cases hp : pstat cfg.factorio_path <;> simp_all
    rw [launch_normal]
    simp only [hx, Bool.true_eq_false, if_false]
    split <;> rfl

/-- Witness for C5: a missing path yields the warning and no spawn; an
existing file is spawned bare. -/
theorem launch_normal_spec_witness :
    launch_normal ⟨"/missing", "", []⟩ (fun _ => PathKind.absent) (fun _ => Except.ok ()) =
      LaunchResult.pathNotFound ∧
    spawnAttempt (launch_normal ⟨"/usr/bin/factorio", "", []⟩ (fun _ => PathKind.file)
        (fun _ => Except.ok ())) = some ["/usr/bin/factorio"] :=
  ⟨(launch_normal_spec ⟨"/missing", "", []⟩ (fun _ => PathKind.absent)
      (fun _ => Except.ok ())).1 rfl,
    (launch_normal_spec ⟨"/usr/bin/factorio", "", []⟩ (fun _ => PathKind.file)
      (fun _ => Except.ok ())).2 (by decide)⟩

/-- Counterexample to C5 as stated: an executable path that references an
existing directory — not an existing file — is not rejected with the
not-found warning; the spawn is attempted, because the source only checks
`Path.exists`. -/
theorem launch_normal_directory_cex :
    (fun p => if p = "/tmp" then PathKind.dir else PathKind.absent) "/tmp" ≠ PathKind.file ∧
    launch_normal ⟨"/tmp", "", []⟩
        (fun p => if p = "/tmp" then PathKind.dir else PathKind.absent)
        (fun _ => Except.ok ()) = LaunchResult.spawned ["/tmp"] := by
  exact ⟨by decide, by decide⟩

/-- C6: `continue_latest_save` runs the Save Finder over the configured
saves directory; when it finds nothing the operation stops with the
no-save warning and attempts no spawn; otherwise the executable is handed
to the spawn call with the pair `"--load-game"`, path-of-found-save. -/
theorem continue_latest_save_spec (cfg : Config) (fs : DirStatus)
    (spawn : List String → Except String Unit) :
    (find_latest_save cfg.saves_dir fs = none →
      continue_latest_save cfg fs spawn = LaunchResult.noSaveFound) ∧
    (∀ latest, find_latest_save cfg.saves_dir fs = some latest →
      spawnAttempt (continue_latest_save cfg fs spawn) =
        some [cfg.factorio_path, "--load-game", latest]) := by
  constructor
  · intro h
    rw [continue_latest_save, h]
  · intro latest h
    simp only [continue_latest_save, h]
    split <;> rfl

/-- Witness for C6: with no saves directory nothing is spawned; with a
single matching save the load pair is handed to the spawn call. -/
theorem continue_latest_save_spec_witness :
    continue_latest_save ⟨"/usr/bin/factorio", "saves", []⟩ DirStatus.missing
        (fun _ => Except.ok ()) = LaunchResult.noSaveFound ∧
    spawnAttempt (continue_latest_save ⟨"/usr/bin/factorio", "saves", []⟩
        (DirStatus.dir [⟨"world.zip", true, 10⟩]) (fun _ => Except.ok ())) =
      some ["/usr/bin/factorio", "--load-game", "saves/world.zip"] :=
  ⟨(continue_latest_save_spec ⟨"/usr/bin/factorio", "saves", []⟩ DirStatus.missing
      (fun _ => Except.ok ())).1 rfl,
    (continue_latest_save_spec ⟨"/usr/bin/factorio", "saves", []⟩
      (DirStatus.dir [⟨"world.zip", true, 10⟩]) (fun _ => Except.ok ())).2
      "saves/world.zip" (by decide)⟩

/-- C7: a configuration file that is present but whose content does not
parse makes `load_config` return the default document in memory while the
file content on disk is left exactly as it was; the function is total, so
nothing is raised to the caller. -/
theorem load_config_unparsable (parse : String → Option Config)
    (defaultText content : String) (hp : parse content = none) :
    load_config parse defaultText (some content) = (defaultConfig, some content) := by
  rw [load_config, ensure_config_path]
  simp [hp]

/-- Witness for C7: a parser refusing the content "not json" yields the
default document and the untouched content. -/
theorem load_config_unparsable_witness :
    load_config (fun _ => none) "default" (some "not json") =
      (defaultConfig, some "not json") :=
  load_config_unparsable (fun _ => none) "default" "not json" rfl

/-- C8: with a nonempty name X — the dialog rejects an empty one with a
warning — adding a server named X with password p makes the credential
lookup for X return p; then removing that very entry (it sits at the end of
the list, at index equal to the previous length) deletes the credential,
and the lookup for X returns the no-secret value `none`, a plain value
rather than an error. -/
theorem add_remove_credential (cfg : Config) (kr : Keyring) (d : DialogData)
    (h : d.name ≠ "")
    (row : Fin (add_server cfg kr d).1.servers.length)
    (hrow : (row : Nat) = cfg.servers.length) :
    get_server_password (add_server cfg kr d).2 d.name = some d.password ∧
    get_server_password
        (remove_server (add_server cfg kr d).1 (add_server cfg kr d).2 row).2 d.name =
      none := by
  constructor
  · simp [add_server, h, store_server_password, get_server_password, keyringSet]
  · have hs : (add_server cfg kr d).1.servers =
        cfg.servers ++ [⟨d.name, d.host, d.port, d.user⟩] := by
      simp [add_server, h]
    have hget : (add_server cfg kr d).1.servers.get row = ⟨d.name, d.host, d.port, d.user⟩ := by
      rw [List.get_eq_getElem]
      simp only [hs]
      exact List.getElem_concat_length cfg.servers _ (row : Nat) hrow _
    rw [List.get_eq_getElem] at hget
    simp [remove_server, hget, delete_server_password, get_server_password, keyringDel]

/-- Witness for C8: adding server X with password p to the empty
configuration and an empty credential store, then removing it again. -/
theorem add_remove_credential_witness :
    get_server_password (add_server defaultConfig (fun _ => none) ⟨"X", "h", 1, "u", "p"⟩).2
        "X" = some "p" ∧
    get_server_password
        (remove_server (add_server defaultConfig (fun _ => none) ⟨"X", "h", 1, "u", "p"⟩).1
          (add_server defaultConfig (fun _ => none) ⟨"X", "h", 1, "u", "p"⟩).2
          ⟨0, by decide⟩).2 "X" = none :=
  add_remove_credential defaultConfig (fun _ => none) ⟨"X", "h", 1, "u", "p"⟩ (by decide)
    ⟨0, by decide⟩ (by decide)

/-- C9: editing the entry at `row` never deletes any credential, stores one
only when the entered password is nonempty (and then under the possibly
new name), and — when the edit renames the server — leaves the credential
under the previous name unchanged, so the old secret stays retrievable
under the old name. -/
theorem edit_server_frame (cfg : Config) (kr : Keyring)
    (row : Fin cfg.servers.length) (d : DialogData)
    (hren : d.name ≠ (cfg.servers.get row).name) :
    get_server_password (edit_server cfg kr row d).2 (cfg.servers.get row).name =
      get_server_password kr (cfg.servers.get row).name ∧
    (∀ n v, get_server_password kr n = some v →
      ∃ w, get_server_password (edit_server cfg kr row d).2 n = some w) ∧
    (d.password = "" → (edit_server cfg kr row d).2 = kr) ∧
    (d.password ≠ "" →
      (edit_server cfg kr row d).2 = store_server_password kr d.name d.password) := by
  refine ⟨?_, ?_, ?_, ?_⟩
  · by_cases hpw : d.password = ""
    · simp [edit_server, hpw]
    · simp only [edit_server, if_neg hpw, get_server_password, store_server_password,
        keyringSet]
      rw [if_neg]
      intro hk
      exact hren (serviceKey_inj _ _ hk).symm
  · intro n v hv
    by_cases hpw : d.password = ""
    · exact ⟨v, by simpa [edit_server, hpw] using hv⟩
    · by_cases hk : serviceKey n = serviceKey d.name
      · refine ⟨d.password, ?_⟩
        simp [edit_server, hpw, store_server_password, get_server_password, keyringSet, hk]
      · refine ⟨v, ?_⟩
        simp only [edit_server, if_neg hpw, get_server_password, store_server_password,
          keyringSet]
        rw [if_neg hk]
        exact hv
  · intro hpw
    simp [edit_server, hpw]
  · intro hpw
    simp [edit_server, hpw]

/-- Witness for C9: renaming the single server "Old" to "New" with a
nonempty password leaves the secret stored under "Old" unchanged. -/
theorem edit_server_frame_witness :
    get_server_password
        (edit_server ⟨"", "", [⟨"Old", "h", 1, "u"⟩]⟩
          (fun k => if k = serviceKey "Old" then some "s" else none)
          ⟨0, by decide⟩ ⟨"New", "h", 1, "u", "q"⟩).2 "Old" =
      get_server_password (fun k => if k = serviceKey "Old" then some "s" else none) "Old" ∧
    get_server_password (fun k => if k = serviceKey "Old" then some "s" else none) "Old" =
      some "s" :=
  ⟨(edit_server_frame ⟨"", "", [⟨"Old", "h", 1, "u"⟩]⟩
      (fun k => if k = serviceKey "Old" then some "s" else none)
      ⟨0, by decide⟩ ⟨"New", "h", 1, "u", "q"⟩ (by decide)).1,
    by decide⟩
